import Mathlib

/-!
Verification of the ni-watcher core (src/main.rs): ignore filter,
event coalescer (debounce), image-normalizer retry loop, bounding box,
and rolling log sink. Shallow embedding: machine integers are Nat,
filesystem and time effects are explicit state / traces.
-/

namespace NiWatcher

/-! ## Ignore filter (`should_ignore`, `is_image_file`, lines 228-271)

Paths and file names are modelled as lists of characters.  `beginsWith`
and `containsSeq` mirror Rust's `str::contains` substring test used for
the `_tmp` and `.normalized.` markers.  The global
`RECENTLY_PROCESSED` set is a list of path strings; insertion happens
inside `should_ignore` on acceptance, and the spawned removal thread
(`thread::sleep(2s); remove`) is modelled by the scheduled removal time
`now + RECENT_WINDOW_MS`. -/

def RECENT_WINDOW_MS : Nat := 2000

def DEBOUNCE_MS : Nat := 2000

def TMP_MARKER : List Char := "_tmp".toList

def NORM_MARKER : List Char := ".normalized.".toList

def beginsWith : List Char → List Char → Bool
  | [], _ => true
  | _ :: _, [] => false
  | a :: as, b :: bs => a = b && beginsWith as bs

def containsSeq (needle : List Char) : List Char → Bool
  | [] => beginsWith needle []
  | c :: rest => beginsWith needle (c :: rest) || containsSeq needle rest

structure WPath where
  fileName : List Char
  pathStr : List Char
  ext : Option (List Char)
deriving DecidableEq

/-- Result of one `should_ignore` call: the returned boolean, the updated
`RECENTLY_PROCESSED` set, and the removal time of the spawned expiry
thread (present exactly when the path was inserted). -/
structure IgnoreStep where
  ignored : Bool
  recent : List (List Char)
  removalScheduledAt : Option Nat
deriving DecidableEq

/-- `should_ignore` (main.rs 240-271): marker checks on the file name,
then membership in the recently-processed set; on acceptance the path is
inserted and a removal is scheduled `RECENT_WINDOW_MS` later. -/
def should_ignore (p : WPath) (now : Nat) (recent : List (List Char)) : IgnoreStep :=
  if containsSeq TMP_MARKER p.fileName then ⟨true, recent, none⟩
  else if containsSeq NORM_MARKER p.fileName then ⟨true, recent, none⟩
  else if p.pathStr ∈ recent then ⟨true, recent, none⟩
  else ⟨false, p.pathStr :: recent, some (now + RECENT_WINDOW_MS)⟩

def SUPPORTED_EXTS : List (List Char) :=
  ["png".toList, "jpg".toList, "jpeg".toList, "bmp".toList, "gif".toList, "tiff".toList]

def toLowerList (s : List Char) : List Char := s.map Char.toLower

/-- `is_image_file` (main.rs 228-237): extension present and, lowercased,
in the supported set. -/
def is_image_file (p : WPath) : Bool :=
  match p.ext with
  | some e => decide (toLowerList e ∈ SUPPORTED_EXTS)
  | none => false

/-- Membership of a path in `RECENTLY_PROCESSED` over time, as produced by
one accepted `should_ignore` call at time `acceptT`: present from the
insertion until the spawned removal fires `RECENT_WINDOW_MS` later.  The
removal thread depends only on the path string, never on any processing
outcome. -/
def recentlyContains (acceptT t : Nat) : Bool :=
  decide (acceptT ≤ t) && decide (t < acceptT + RECENT_WINDOW_MS)

/-- Sequence of `should_ignore` results for one path called at the given
times, tracking the membership window `[accept, accept + 2000)` induced by
the insert-then-scheduled-removal pair in the source. -/
def ignoreCallsAux (name : List Char) : Option Nat → List Nat → List Bool
  | _, [] => []
  | win, t :: ts =>
    if containsSeq TMP_MARKER name || containsSeq NORM_MARKER name then
      true :: ignoreCallsAux name win ts
    else
      match win with
      | some e =>
        if t < e then true :: ignoreCallsAux name (some e) ts
        else false :: ignoreCallsAux name (some (t + RECENT_WINDOW_MS)) ts
      | none => false :: ignoreCallsAux name (some (t + RECENT_WINDOW_MS)) ts

def ignoreCalls (name : List Char) (ts : List Nat) : List Bool :=
  ignoreCallsAux name none ts

/-! ## Per-path body of `handle_file_event` (main.rs 173-203)

`should_ignore` is evaluated first (Rust's `||` short-circuits, but its
left operand always runs), so its insertion side effect happens even when
`is_image_file` then rejects the path. -/

/-- Result of handling one path of a qualifying event. -/
structure HandleStep where
  recent : List (List Char)
  pending : List (List Char × Nat)
  removalScheduledAt : Option Nat
  queued : Bool
deriving DecidableEq

/-- One iteration of the `for path in paths` loop in `handle_file_event`:
run `should_ignore` (always), then `is_image_file`; only when both accept
is the path inserted into `PENDING_FILES` with the event timestamp. -/
def handle_file_event_path (p : WPath) (now : Nat) (recent : List (List Char))
    (pending : List (List Char × Nat)) : HandleStep :=
  let ig := should_ignore p now recent
  if ig.ignored || !is_image_file p then
    ⟨ig.recent, pending, ig.removalScheduledAt, false⟩
  else
    ⟨ig.recent, (p.pathStr, now) :: pending, ig.removalScheduledAt, true⟩

/-! ## Event coalescer behind the ignore filter (main.rs 165-209)

For a single path, events first pass `should_ignore`: an accepted event
at time `t` enters the Recently-Processed window `[t, t + W)` with
`W = RECENT_WINDOW_MS`, and every later event inside that window is
swallowed at main.rs 174 before reaching `PENDING_FILES`.  An accepted
event overwrites the pending timestamp with `t` and schedules a
confirmation at `t + D` capturing `t`; a confirmation dispatches exactly
when the stored timestamp still equals its captured one, removing the
entry.  `Act` is one happening on the shared pending table, `runAux`
executes them in order, and `schedF` lays the acts out on the time line,
threading the ignore window and the outstanding confirmations
(confirmations due at or before an event's time are placed before it;
the claims below only use strict spacings, where the order at such a tie
is irrelevant). -/

inductive Act where
  | ev : Nat → Act
  | chk : Nat → Act
deriving DecidableEq

/-- Execute happenings against the pending entry for one path
(`none` = absent).  `ev t` is the insert/overwrite performed by
`handle_file_event`; `chk c` is the spawned confirmation comparing the
stored timestamp to its captured `c`, dispatching (recording `c`) and
removing the entry on a match. -/
def runAux : Option Nat → List Act → List Nat
  | _, [] => []
  | _, Act.ev t :: rest => runAux (some t) rest
  | s, Act.chk c :: rest =>
    if s = some c then c :: runAux none rest else runAux s rest

/-- Lay out the acts for raw events `ts` (strictly increasing times) with
ignore window `W` and debounce `D`.  State: `r` is the end of the current
Recently-Processed window (if any), `pend` the captured timestamps of
outstanding confirmations in schedule order.  At each event time `t`,
confirmations already due (`c + D ≤ t`) fire first; the event is accepted
exactly when it is outside the ignore window (this is main.rs 174: the
`should_ignore` membership test, whose removal fires `W` after the
insertion); an accepted event inserts into the pending table and opens a
fresh window, a swallowed one changes nothing.  After the last event the
remaining confirmations fire. -/
def schedF (W D : Nat) : Option Nat → List Nat → List Nat → List Act
  | _, pend, [] => pend.map Act.chk
  | r, pend, t :: ts =>
    let due := pend.filter (fun c => decide (c + D ≤ t))
    let live := pend.filter (fun c => decide (t < c + D))
    if (match r with | some e => decide (e ≤ t) | none => true) then
      due.map Act.chk ++ Act.ev t :: schedF W D (some (t + W)) (live ++ [t]) ts
    else
      due.map Act.chk ++ schedF W D r live ts

/-- Dispatches produced by feeding the raw events `ts` for one path
through the ignore filter and the debounce mechanism of
`handle_file_event`. -/
def pipeline (ts : List Nat) (W D : Nat) : List Nat :=
  runAux none (schedF W D none [] ts)

/-! ## Image normalizer: `process_and_save` decode retry (main.rs 274-367)

The open+decode of attempt `r` is an injected function `attempt r`
(`ImageReader::open` + `decode`, each real call touching the disk once);
its success value is the decoded image, abstracted as a type parameter.
`decode_loop attempt r fuel` mirrors the source loop at `retries = r`
with `fuel = MAX_RETRIES - r` retries still allowed, and returns the
result together with the list of attempt indices made and the list of
sleep durations performed between attempts. -/

def MAX_RETRIES : Nat := 5

def RETRY_DELAY_MS : Nat := 200

def decode_loop {I : Type} (attempt : Nat → Except String I) :
    Nat → Nat → Except String I × List Nat × List Nat
  | r, 0 => (attempt r, [r], [])
  | r, fuel + 1 =>
    match attempt r with
    | Except.ok i => (Except.ok i, [r], [])
    | Except.error _ =>
      let p := decode_loop attempt (r + 1) fuel
      (p.1, r :: p.2.1, RETRY_DELAY_MS :: p.2.2)

def decode_with_retry {I : Type} (attempt : Nat → Except String I) :
    Except String I × List Nat × List Nat :=
  decode_loop attempt 0 MAX_RETRIES

/-- The distinguishable failure outcomes of `process_and_save` (the source
reports them as formatted strings; `decodeFailed` carries the underlying
error of the last attempt). -/
inductive PError where
  | notFound : PError
  | decodeFailed : String → PError
  | noExtension : PError
  | saveFailed : PError
  | renameFailed : PError
deriving DecidableEq

/-- Observable outcome of one `process_and_save` call: its result, whether
the `.normalized.` temporary file was ever created, whether the original
file was replaced, and the decode attempt/sleep traces. -/
structure FsOutcome where
  result : Except PError Unit
  tempCreated : Bool
  originalReplaced : Bool
  attempts : List Nat
  sleeps : List Nat

/-- `process_and_save` (main.rs 274-367): existence check, decode with
bounded retry, temp-file save, rename over the original.  The image
transform itself does not affect the filesystem effects modelled here;
save and rename outcomes are injected booleans. -/
def process_and_save {I : Type} (pathExists : Bool) (attempt : Nat → Except String I)
    (hasExt saveOk renameOk : Bool) : FsOutcome :=
  if pathExists = false then ⟨Except.error PError.notFound, false, false, [], []⟩
  else
    match decode_with_retry attempt with
    | (Except.error e, tr, sl) => ⟨Except.error (PError.decodeFailed e), false, false, tr, sl⟩
    | (Except.ok _, tr, sl) =>
      if hasExt = false then ⟨Except.error PError.noExtension, false, false, tr, sl⟩
      else if saveOk = false then ⟨Except.error PError.saveFailed, true, false, tr, sl⟩
      else if renameOk = false then ⟨Except.error PError.renameFailed, true, false, tr, sl⟩
      else ⟨Except.ok (), true, true, tr, sl⟩

/-! ## Bounding box (`bounding_box`, main.rs 402-418)

A grayscale image is a width, a height, and a luminance per coordinate
(u8 values as Nat).  The scan folds over all pixels in the source's loop
order, starting from `(left, right, top, bottom) = (width, 0, height, 0)`,
and the function returns `(left.min(width-1), top.min(height-1),
(right+1).min(width), (bottom+1).min(height))` in that order. -/

structure GrayImage where
  width : Nat
  height : Nat
  pixel : Nat → Nat → Nat

/-- The pixel scan of `bounding_box`: accumulator `(left, right, top,
bottom)` updated at every pixel whose luminance is below the threshold. -/
def bbScan (img : GrayImage) (threshold : Nat) : Nat × Nat × Nat × Nat :=
  (List.range img.height).foldl
    (fun acc y =>
      (List.range img.width).foldl
        (fun acc x =>
          if img.pixel x y < threshold then
            (min acc.1 x, max acc.2.1 x, min acc.2.2.1 y, max acc.2.2.2 y)
          else acc)
        acc)
    (img.width, 0, img.height, 0)

/-- `bounding_box` (main.rs 402-418), returning `(left, top, right,
bottom)` exactly as the source's final clamped tuple. -/
def bounding_box (img : GrayImage) (tol : Nat) : Nat × Nat × Nat × Nat :=
  let threshold := 255 - tol
  let s := bbScan img threshold
  (min s.1 (img.width - 1), min s.2.2.1 (img.height - 1),
    min (s.2.1 + 1) img.width, min (s.2.2.2 + 1) img.height)

/-- A 3×3 image that is pure background: every luminance is 255. -/
def whiteImg3 : GrayImage := ⟨3, 3, fun _ _ => 255⟩

/-! ## Rolling log sink (`RollingFileLogger`, main.rs 421-455)

The logs directory is a map from segment index to the size of `log<i>.txt`
when that file exists.  `renameSeg` is one `fs::rename` guarded by
`src.exists()`; `rotate` is the `for i in (0..max_files).rev()` loop;
`cleanup` removes `log<max_files>.txt`; `RollingLogger_new` is
`RollingFileLogger::new`: conditional rotation, then unconditional
cleanup, then open of slot 0 in create+append mode (keeping an existing
file's size, creating an empty one otherwise).  `fs::metadata` on an
existing file and the renames are assumed to succeed (the source ignores
their errors). -/

def Fs : Type := Nat → Option Nat

def renameSeg (fs : Fs) (src dst : Nat) : Fs :=
  fun k =>
    if (fs src).isSome then
      if k = dst then fs src else if k = src then none else fs k
    else fs k

def rotate (fs : Fs) (maxFiles : Nat) : Fs :=
  ((List.range maxFiles).reverse).foldl (fun f i => renameSeg f i (i + 1)) fs

def cleanup (fs : Fs) (maxFiles : Nat) : Fs :=
  fun k => if k = maxFiles then none else fs k

/-- The rotation condition of `RollingFileLogger::new`: the active segment
exists and its size is at least `max_size`. -/
def rotationNeeded (fs : Fs) (maxSize : Nat) : Bool :=
  match fs 0 with
  | some sz => decide (maxSize ≤ sz)
  | none => false

def RollingLogger_new (fs : Fs) (maxSize maxFiles : Nat) : Fs :=
  let fs1 := if rotationNeeded fs maxSize then rotate fs maxFiles else fs
  let fs2 := cleanup fs1 maxFiles
  fun k => if k = 0 then some ((fs2 0).getD 0) else fs2 k

/-- A logs directory holding only `log3.txt` (10 bytes): slot 0 is absent,
so no rotation is due. -/
def fsLog3 : Fs := fun k => if k = 3 then some 10 else none

/-! ## Theorems -/

/-- C1: on a pure-background image (here 3×3, every luminance 255, so no
pixel is below the threshold `255 - 10`), `bounding_box` does NOT
degenerate to the full clamped image bounds: it returns
`(left, top, right, bottom) = (2, 2, 1, 1)`, in which `left < right`
fails, so the subsequent `crop_imm(l, t, r - l, b - t)` in
`process_image` receives a negative-width rectangle (`r - l` underflows
in `u32`).  This refutes the claim as stated and exhibits the code bug at
a concrete input. -/
theorem bounding_box_pure_background_bug :
    (∀ x, x < 3 → ∀ y, y < 3 → ¬ whiteImg3.pixel x y < 255 - 10)
    ∧ bounding_box whiteImg3 10 = (2, 2, 1, 1)
    ∧ ¬ (bounding_box whiteImg3 10).1 < (bounding_box whiteImg3 10).2.2.1 := by
  refine ⟨by decide, by decide, by decide⟩

/-- C6 counterexample: the Recently-Processed entry for a path accepted at
time 0 is present immediately, but is gone at time `DEBOUNCE_MS + 1` —
the earliest a normalization (which starts only after the `DEBOUNCE_MS`
sleep and takes positive time) can have completed.  So after a completed
normalization the set does not contain the path, contradicting the
claim. -/
theorem recently_processed_not_at_completion :
    recentlyContains 0 0 = true
    ∧ recentlyContains 0 (0 + DEBOUNCE_MS + 1) = false := by
  refine ⟨by decide, by decide⟩

/-- C6 (amended): the Ignore Filter self-registers a path at acceptance
time, inside `should_ignore` itself — the accepted call inserts the path
and schedules its removal `RECENT_WINDOW_MS` later — not after completed
processing; membership lasts exactly that window, so at any completion
time (at least `DEBOUNCE_MS` plus a positive processing duration after
acceptance) the set no longer contains the path. -/
theorem should_ignore_registers_at_accept (p : WPath) (now dur t : Nat)
    (recent : List (List Char))
    (hm1 : containsSeq TMP_MARKER p.fileName = false)
    (hm2 : containsSeq NORM_MARKER p.fileName = false)
    (hmem : p.pathStr ∉ recent)
    (hta : now ≤ t) (htb : t < now + RECENT_WINDOW_MS) :
    (should_ignore p now recent).ignored = false
    ∧ (should_ignore p now recent).recent = p.pathStr :: recent
    ∧ (should_ignore p now recent).removalScheduledAt = some (now + RECENT_WINDOW_MS)
    ∧ recentlyContains now t = true
    ∧ recentlyContains now (now + DEBOUNCE_MS + dur) = false := by
  have hsi : should_ignore p now recent =
      ⟨false, p.pathStr :: recent, some (now + RECENT_WINDOW_MS)⟩ := by
    simp [should_ignore, hm1, hm2, hmem]
  refine ⟨by rw [hsi], by rw [hsi], by rw [hsi], ?_, ?_⟩
  · simp [recentlyContains, hta, htb]
  · simp [recentlyContains, DEBOUNCE_MS, RECENT_WINDOW_MS]

theorem should_ignore_registers_at_accept_witness :
    (containsSeq TMP_MARKER ['a'] = false
      ∧ containsSeq NORM_MARKER ['a'] = false
      ∧ (['a'] : List Char) ∉ ([] : List (List Char))
      ∧ (0 : Nat) ≤ 1 ∧ (1 : Nat) < 0 + RECENT_WINDOW_MS)
    ∧ ((should_ignore ⟨['a'], ['a'], none⟩ 0 []).ignored = false
      ∧ (should_ignore ⟨['a'], ['a'], none⟩ 0 []).recent = [['a']]
      ∧ (should_ignore ⟨['a'], ['a'], none⟩ 0 []).removalScheduledAt
          = some (0 + RECENT_WINDOW_MS)
      ∧ recentlyContains 0 1 = true
      ∧ recentlyContains 0 (0 + DEBOUNCE_MS + 1) = false) :=
  ⟨⟨by decide, by decide, by decide, by decide, by decide⟩,
    should_ignore_registers_at_accept ⟨['a'], ['a'], none⟩ 0 1 1 []
      (by decide) (by decide) (by decide) (by decide) (by decide)⟩

/-- C8: a path accepted by `should_ignore` at `t0` (no marker in its
name, not currently in the set) is ignored on a repeat call at any `t1`
inside the expiry window and accepted again at any `t2` after the window;
moreover the membership created at `t0` is gone at every time from
`t0 + RECENT_WINDOW_MS` on — the scheduled removal runs unconditionally,
independent of how (or whether) processing of the path turned out. -/
theorem should_ignore_transient_membership (name : List Char) (t0 t1 t2 : Nat)
    (hm1 : containsSeq TMP_MARKER name = false)
    (hm2 : containsSeq NORM_MARKER name = false)
    (h01 : t0 ≤ t1) (h1 : t1 < t0 + RECENT_WINDOW_MS)
    (h2 : t0 + RECENT_WINDOW_MS < t2) :
    ignoreCalls name [t0, t1, t2] = [false, true, false]
    ∧ (∀ u, t0 + RECENT_WINDOW_MS ≤ u → recentlyContains t0 u = false) := by
  constructor
  · simp only [ignoreCalls, ignoreCallsAux, hm1, hm2, Bool.or_self, Bool.false_eq_true,
      if_false]
    rw [if_pos h1, if_neg (by omega)]
  · intro u hu
    simp [recentlyContains]
    omega

theorem should_ignore_transient_membership_witness :
    (containsSeq TMP_MARKER ['a'] = false
      ∧ containsSeq NORM_MARKER ['a'] = false
      ∧ (0 : Nat) ≤ 1 ∧ (1 : Nat) < 0 + RECENT_WINDOW_MS
      ∧ 0 + RECENT_WINDOW_MS < 2001)
    ∧ (ignoreCalls ['a'] [0, 1, 2001] = [false, true, false]
      ∧ (∀ u, 0 + RECENT_WINDOW_MS ≤ u → recentlyContains 0 u = false)) :=
  ⟨⟨by decide, by decide, by decide, by decide, by decide⟩,
    should_ignore_transient_membership ['a'] 0 1 2001
      (by decide) (by decide) (by decide) (by decide) (by decide)⟩

/-- C10: in the per-path body of `handle_file_event`, `should_ignore`
runs before `is_image_file`, so a path with no temp or normalized marker
that is not already in the Recently-Processed Set is inserted into the
set — with a removal scheduled `RECENT_WINDOW_MS` later — even when the
path is then rejected for not having a supported image extension; the
path is not queued and `PENDING_FILES` is unchanged. -/
theorem handle_file_event_filter_side_effect (p : WPath) (now : Nat)
    (recent : List (List Char)) (pending : List (List Char × Nat))
    (hm1 : containsSeq TMP_MARKER p.fileName = false)
    (hm2 : containsSeq NORM_MARKER p.fileName = false)
    (hmem : p.pathStr ∉ recent)
    (himg : is_image_file p = false) :
    (handle_file_event_path p now recent pending).recent = p.pathStr :: recent
    ∧ (handle_file_event_path p now recent pending).removalScheduledAt
        = some (now + RECENT_WINDOW_MS)
    ∧ (handle_file_event_path p now recent pending).queued = false
    ∧ (handle_file_event_path p now recent pending).pending = pending := by
  have hsi : should_ignore p now recent =
      ⟨false, p.pathStr :: recent, some (now + RECENT_WINDOW_MS)⟩ := by
    simp [should_ignore, hm1, hm2, hmem]
  refine ⟨?_, ?_, ?_, ?_⟩ <;>
    simp [handle_file_event_path, hsi, himg]

theorem handle_file_event_filter_side_effect_witness :
    (containsSeq TMP_MARKER "a.txt".toList = false
      ∧ containsSeq NORM_MARKER "a.txt".toList = false
      ∧ "a.txt".toList ∉ ([] : List (List Char))
      ∧ is_image_file ⟨"a.txt".toList, "a.txt".toList, some "txt".toList⟩ = false)
    ∧ ((handle_file_event_path ⟨"a.txt".toList, "a.txt".toList, some "txt".toList⟩
          7 [] []).recent = ["a.txt".toList]
      ∧ (handle_file_event_path ⟨"a.txt".toList, "a.txt".toList, some "txt".toList⟩
          7 [] []).removalScheduledAt = some (7 + RECENT_WINDOW_MS)
      ∧ (handle_file_event_path ⟨"a.txt".toList, "a.txt".toList, some "txt".toList⟩
          7 [] []).queued = false
      ∧ (handle_file_event_path ⟨"a.txt".toList, "a.txt".toList, some "txt".toList⟩
          7 [] []).pending = []) :=
  ⟨⟨by decide, by decide, by decide, by decide⟩,
    handle_file_event_filter_side_effect ⟨"a.txt".toList, "a.txt".toList, some "txt".toList⟩
      7 [] [] (by decide) (by decide) (by decide) (by decide)⟩

/-- When every attempt in reach fails, the retry loop makes all of them,
sleeps between consecutive ones, and returns the error of the last. -/
theorem decode_loop_all_fail {I : Type} (attempt : Nat → Except String I)
    (errs : Nat → String) :
    ∀ (fuel r : Nat), (∀ j, j ≤ fuel → attempt (r + j) = Except.error (errs (r + j))) →
      decode_loop attempt r fuel =
        (Except.error (errs (r + fuel)), (List.range (fuel + 1)).map (r + ·),
          List.replicate fuel RETRY_DELAY_MS) := by
  intro fuel
  induction fuel with
  | zero =>
    intro r h
    have h0 := h 0 (Nat.le_refl 0)
    simp only [Nat.add_zero] at h0
    simp [decode_loop, h0, List.range_succ]
  | succ fuel ih =>
    intro r h
    have h0 := h 0 (Nat.zero_le _)
    simp only [Nat.add_zero] at h0
    have hrest : ∀ j, j ≤ fuel → attempt ((r + 1) + j) = Except.error (errs ((r + 1) + j)) := by
      intro j hj
      have h2 := h (j + 1) (by omega)
      have hidx : r + (j + 1) = (r + 1) + j := by omega
      rw [hidx] at h2
      exact h2
    have hrec := ih (r + 1) hrest
    have hidx2 : (r + 1) + fuel = r + (fuel + 1) := by omega
    have hlist : r :: (List.range (fuel + 1)).map ((r + 1) + ·) =
        (List.range (fuel + 1 + 1)).map (r + ·) := by
      conv_rhs => rw [List.range_succ_eq_map]
      rw [List.map_cons, List.map_map]
      have hcomp : ((fun x => r + x) ∘ Nat.succ) = fun j => (r + 1) + j := by
        funext j
        simp only [Function.comp_apply]
        omega
      rw [hcomp]
      simp
    simp only [decode_loop, h0, hrec, hidx2, List.replicate_succ]
    rw [hlist]

/-- C5: when the source file exists but every open+decode attempt fails,
`process_and_save` makes the initial attempt plus `MAX_RETRIES = 5`
retries (attempt indices 0..5) with a fixed `RETRY_DELAY_MS = 200`
sleep between consecutive attempts, then fails with a decode error
carrying the error of the last attempt; on this path no temporary file is
created and the original file is not replaced. -/
theorem process_and_save_decode_retry {I : Type} (attempt : Nat → Except String I)
    (errs : Nat → String) (hasExt saveOk renameOk : Bool)
    (h : ∀ r, r ≤ MAX_RETRIES → attempt r = Except.error (errs r)) :
    process_and_save true attempt hasExt saveOk renameOk =
      ⟨Except.error (PError.decodeFailed (errs 5)), false, false,
        [0, 1, 2, 3, 4, 5], List.replicate 5 RETRY_DELAY_MS⟩ := by
  have hd : decode_with_retry attempt =
      (Except.error (errs 5), [0, 1, 2, 3, 4, 5], List.replicate 5 RETRY_DELAY_MS) := by
    have hall := decode_loop_all_fail attempt errs MAX_RETRIES 0
      (fun j hj => h (0 + j) (by omega))
    rw [decode_with_retry, hall]
    rfl
  simp [process_and_save, hd]

theorem process_and_save_decode_retry_witness :
    (∀ r, r ≤ MAX_RETRIES →
      (fun _ => (Except.error "boom" : Except String Unit)) r = Except.error "boom")
    ∧ process_and_save true (fun _ => (Except.error "boom" : Except String Unit))
        true true true =
      ⟨Except.error (PError.decodeFailed "boom"), false, false,
        [0, 1, 2, 3, 4, 5], List.replicate 5 RETRY_DELAY_MS⟩ :=
  ⟨fun _ _ => rfl,
    process_and_save_decode_retry (fun _ => (Except.error "boom" : Except String Unit))
      (fun _ => "boom") true true true (fun _ _ => rfl)⟩

/-- A confirmation whose captured timestamp differs from the stored one
leaves the pending entry and the dispatch list unchanged. -/
theorem runAux_chk_ne (v c : Nat) (rest : List Act) (h : c ≠ v) :
    runAux (some v) (Act.chk c :: rest) = runAux (some v) rest := by
  have hne : (some v : Option Nat) ≠ some c := by
    intro hh
    exact h (Option.some.inj hh).symm
  simp [runAux, hne]

/-- C2 counterexample: with the source constants (ignore window and
debounce window both 2000 ms), a burst of two raw events at 0 and 1500
(spaced less than the debounce window) yields exactly one dispatch whose
matched timestamp is that of the FIRST event, 0, not the last — the
1500 event is swallowed by the Recently-Processed window opened at 0 and
never reaches the pending table; and three events at 0, 1500, 3000, each
less than the debounce window after the previous, yield TWO dispatches
(0 and 3000), because the window opened at 0 has expired by 3000.  Both
refute the claim's one-dispatch-with-last-timestamp guarantee. -/
theorem coalescing_filter_burst_cex :
    (1500 - 0 < DEBOUNCE_MS ∧ 3000 - 1500 < DEBOUNCE_MS)
    ∧ pipeline [0, 1500] RECENT_WINDOW_MS DEBOUNCE_MS = [0]
    ∧ pipeline [0, 1500, 3000] RECENT_WINDOW_MS DEBOUNCE_MS = [0, 3000] := by
  refine ⟨by decide, by decide, by decide⟩

/-- While the Recently-Processed window of an accepted event at `t0` is
open and its confirmation is not yet due, later raw events are swallowed
without touching the pending table, leaving only the confirmation of
`t0` to fire. -/
theorem schedF_swallow (W D t0 : Nat) : ∀ (rest : List Nat),
    (∀ u ∈ rest, u < t0 + W ∧ u < t0 + D) →
    schedF W D (some (t0 + W)) [t0] rest = [Act.chk t0] := by
  intro rest
  induction rest with
  | nil => intro _; rfl
  | cons u us ih =>
    intro h
    obtain ⟨huW, huD⟩ := h u (List.mem_cons_self u us)
    have hacc : (decide (t0 + W ≤ u)) = false := by
      simp only [decide_eq_false_iff_not]
      omega
    have hdue : ([t0].filter (fun c => decide (c + D ≤ u))) = [] := by
      simp only [List.filter_cons, List.filter_nil, decide_eq_true_eq]
      rw [if_neg (by omega)]
    have hlive : ([t0].filter (fun c => decide (u < c + D))) = [t0] := by
      simp only [List.filter_cons, List.filter_nil, decide_eq_true_eq]
      rw [if_pos (by omega)]
    simp only [schedF, hdue, hlive, hacc, List.map_nil, List.nil_append,
      Bool.false_eq_true, if_false]
    exact ih (fun v hv => h v (List.mem_cons_of_mem u hv))

/-- C2 (amended): because the Ignore Filter's Recently-Processed window
equals the debounce window, a burst whose later events all fall inside
the window opened by its first event produces exactly one dispatch,
matched at the FIRST event's timestamp (the later events are swallowed
at main.rs 174 and never update the Pending Entry); two events spaced
more than the window apart produce exactly the two dispatches, each at
its own timestamp; and a confirmation step no-ops whenever its captured
timestamp differs from the stored pending timestamp or the entry is
absent, so each insertion's confirmation dispatches at most once. -/
theorem handle_file_event_pipeline (t0 t2 W D : Nat) (rest : List Nat)
    (hburst : ∀ u ∈ rest, t0 < u ∧ u < t0 + W ∧ u < t0 + D)
    (hgapW : t0 + W < t2) (hgapD : t0 + D < t2) :
    pipeline (t0 :: rest) W D = [t0]
    ∧ pipeline [t0, t2] W D = [t0, t2]
    ∧ (∀ v c acts, c ≠ v →
        runAux (some v) (Act.chk c :: acts) = runAux (some v) acts)
    ∧ (∀ c acts, runAux none (Act.chk c :: acts) = runAux none acts) := by
  refine ⟨?_, ?_, fun v c acts h => runAux_chk_ne v c acts h, fun c acts => by simp [runAux]⟩
  · rw [pipeline]
    simp only [schedF, List.filter_nil, List.map_nil, List.nil_append, if_true]
    rw [schedF_swallow W D t0 rest
      (fun u hu => ⟨(hburst u hu).2.1, (hburst u hu).2.2⟩)]
    simp [runAux]
  · rw [pipeline]
    have hacc2 : (decide (t0 + W ≤ t2)) = true := by
      simp only [decide_eq_true_eq]
      omega
    have hdue2 : ([t0].filter (fun c => decide (c + D ≤ t2))) = [t0] := by
      simp only [List.filter_cons, List.filter_nil, decide_eq_true_eq]
      rw [if_pos (by omega)]
    have hlive2 : ([t0].filter (fun c => decide (t2 < c + D))) = [] := by
      simp only [List.filter_cons, List.filter_nil, decide_eq_true_eq]
      rw [if_neg (by omega)]
    simp only [schedF, List.filter_nil, List.map_nil, List.nil_append,
      hacc2, hdue2, hlive2, if_true, List.map_cons]
    simp [runAux]

theorem handle_file_event_pipeline_witness :
    ((∀ u ∈ [1, 2], (0 : Nat) < u ∧ u < 0 + 2000 ∧ u < 0 + 2000)
      ∧ 0 + 2000 < 2001 ∧ 0 + 2000 < 2001)
    ∧ (pipeline [0, 1, 2] 2000 2000 = [0]
      ∧ pipeline [0, 2001] 2000 2000 = [0, 2001]
      ∧ (∀ v c acts, c ≠ v →
          runAux (some v) (Act.chk c :: acts) = runAux (some v) acts)
      ∧ (∀ c acts, runAux none (Act.chk c :: acts) = runAux none acts)) :=
  ⟨⟨by decide, by decide, by decide⟩,
    handle_file_event_pipeline 0 2001 2000 2000 [1, 2]
      (by decide) (by decide) (by decide)⟩

theorem rotate_zero (fs : Fs) : rotate fs 0 = fs := rfl

theorem rotate_succ (fs : Fs) (n : Nat) :
    rotate fs (n + 1) = rotate (renameSeg fs n (n + 1)) n := by
  simp [rotate, List.range_succ]

/-- Pointwise effect of the rotation loop: slot 0 is freed, every slot
`1 ≤ k < n` receives the previous content of slot `k - 1` (none when the
source was missing and the rename skipped), slot `n` receives slot
`n - 1` when that existed and otherwise keeps its own content, and slots
beyond `n` are untouched. -/
theorem rotate_apply (n : Nat) : 0 < n → ∀ (fs : Fs) (k : Nat),
    rotate fs n k =
      if k = 0 then none
      else if k < n then fs (k - 1)
      else if k = n then (if (fs (n - 1)).isSome then fs (n - 1) else fs n)
      else fs k := by
  induction n with
  | zero => intro h; omega
  | succ m ih =>
    intro _ fs k
    rw [rotate_succ]
    by_cases hm : m = 0
    · subst hm
      rw [rotate_zero]
      by_cases hk0 : k = 0
      · subst hk0
        cases hfs0 : fs 0 with
        | none => simp [renameSeg, hfs0]
        | some sz => simp [renameSeg, hfs0]
      · by_cases hk1 : k = 1
        · subst hk1
          cases hfs0 : fs 0 with
          | none => simp [renameSeg, hfs0]
          | some sz => simp [renameSeg, hfs0]
        · rw [if_neg hk0, if_neg (by omega), if_neg (by omega)]
          cases hfs0 : fs 0 with
          | none => simp [renameSeg, hfs0]
          | some sz =>
            simp [renameSeg, hfs0, show k ≠ 0 + 1 by omega, show k ≠ 0 from hk0]
    · have hmpos : 0 < m := Nat.pos_of_ne_zero hm
      rw [ih hmpos]
      have hglt : ∀ j, j < m → renameSeg fs m (m + 1) j = fs j := by
        intro j hj
        cases hfsm : fs m with
        | none => simp [renameSeg, hfsm]
        | some sz =>
          simp [renameSeg, hfsm, show j ≠ m + 1 by omega, show j ≠ m by omega]
      have hgm : renameSeg fs m (m + 1) m = none := by
        cases hfsm : fs m with
        | none => simp [renameSeg, hfsm]
        | some sz => simp [renameSeg, hfsm, show m ≠ m + 1 by omega]
      have hgm1 : renameSeg fs m (m + 1) (m + 1)
          = if (fs m).isSome then fs m else fs (m + 1) := by
        cases hfsm : fs m with
        | none => simp [renameSeg, hfsm]
        | some sz => simp [renameSeg, hfsm]
      have hggt : ∀ j, m + 1 < j → renameSeg fs m (m + 1) j = fs j := by
        intro j hj
        cases hfsm : fs m with
        | none => simp [renameSeg, hfsm]
        | some sz =>
          simp [renameSeg, hfsm, show j ≠ m + 1 by omega, show j ≠ m by omega]
      by_cases hk0 : k = 0
      · simp [hk0]
      · by_cases hklt : k < m
        · rw [if_neg hk0, if_pos hklt, if_neg hk0, if_pos (by omega)]
          exact hglt (k - 1) (by omega)
        · by_cases hkm : k = m
          · rw [hkm, hglt (m - 1) (by omega), hgm]
            rw [if_neg (show ¬ (m = 0) from hm), if_neg (show ¬ m < m by omega),
              if_pos rfl, if_neg (show ¬ (m = 0) from hm),
              if_pos (show m < m + 1 by omega)]
            cases hfm : fs (m - 1) with
            | none => simp [hfm]
            | some sz => simp [hfm]
          · by_cases hkm1 : k = m + 1
            · subst hkm1
              rw [if_neg hk0, if_neg hklt, if_neg hkm, if_neg hk0,
                if_neg (by omega), if_pos rfl]
              exact hgm1
            · rw [if_neg hk0, if_neg hklt, if_neg hkm, if_neg hk0,
                if_neg (by omega), if_neg hkm1]
              exact hggt k (by omega)

/-- C7 counterexample: with `max_segments = 3` and only `log3.txt`
present (slot 0 absent, so the rotation condition is false and no
rotation takes place), `RollingFileLogger::new` still deletes the segment
at index 3 — `cleanup` runs unconditionally, refuting the claim that the
retention segment is deleted only after a rotation has occurred. -/
theorem rolling_cleanup_without_rotation :
    rotationNeeded fsLog3 100 = false
    ∧ fsLog3 3 = some 10
    ∧ RollingLogger_new fsLog3 100 3 3 = none := by
  refine ⟨by decide, by decide, by decide⟩

/-- C7 (amended): `RollingFileLogger::new` rotates exactly when the
active segment exists with size at least `max_bytes`; rotation renames
segment `N` to `N+1` for `N` from `max_segments - 1` down to `0`,
skipping renames whose source does not exist (so slot `k` ends up with
the previous content of slot `k - 1` and slot 0 is freed); and the
segment at index `max_segments` is deleted unconditionally on every open,
whether or not a rotation took place. -/
theorem RollingLogger_new_rotation_spec (fs : Fs) (maxSize maxFiles : Nat)
    (hmf : 0 < maxFiles) :
    RollingLogger_new fs maxSize maxFiles maxFiles = none
    ∧ (rotationNeeded fs maxSize = true ↔ ∃ sz, fs 0 = some sz ∧ maxSize ≤ sz)
    ∧ (rotationNeeded fs maxSize = false →
        ∀ k, k ≠ 0 → k ≠ maxFiles → RollingLogger_new fs maxSize maxFiles k = fs k)
    ∧ (rotationNeeded fs maxSize = true →
        (∀ k, 0 < k → k < maxFiles →
          RollingLogger_new fs maxSize maxFiles k = fs (k - 1))
        ∧ RollingLogger_new fs maxSize maxFiles 0 = some 0) := by
  refine ⟨?_, ?_, ?_, ?_⟩
  · simp only [RollingLogger_new]
    rw [if_neg (by omega : ¬ maxFiles = 0)]
    simp [cleanup]
  · cases hfs0 : fs 0 with
    | none => simp [rotationNeeded, hfs0]
    | some sz => simp [rotationNeeded, hfs0]
  · intro hrot k hk0 hkm
    simp only [RollingLogger_new, hrot, Bool.false_eq_true, if_false]
    rw [if_neg hk0]
    simp [cleanup, hkm]
  · intro hrot
    constructor
    · intro k hk0 hkm
      simp only [RollingLogger_new, hrot, if_true, cleanup]
      rw [if_neg (by omega : ¬ k = 0), if_neg (by omega : ¬ k = maxFiles)]
      rw [rotate_apply maxFiles hmf]
      rw [if_neg (by omega : ¬ k = 0), if_pos hkm]
    · simp only [RollingLogger_new, hrot, if_true]
      have h0 : rotate fs maxFiles 0 = none := by
        rw [rotate_apply maxFiles hmf]
        simp
      simp [cleanup, h0, show ¬ (0 : Nat) = maxFiles by omega]

/-- A logs directory with an oversized active segment (150 bytes) and a
`log1.txt` of 7 bytes. -/
def fsFull : Fs := fun k => if k = 0 then some 150 else if k = 1 then some 7 else none

theorem RollingLogger_new_rotation_spec_witness :
    (0 : Nat) < 3
    ∧ (RollingLogger_new fsFull 100 3 3 = none
      ∧ (rotationNeeded fsFull 100 = true ↔ ∃ sz, fsFull 0 = some sz ∧ 100 ≤ sz)
      ∧ (rotationNeeded fsFull 100 = false →
          ∀ k, k ≠ 0 → k ≠ 3 → RollingLogger_new fsFull 100 3 k = fsFull k)
      ∧ (rotationNeeded fsFull 100 = true →
          (∀ k, 0 < k → k < 3 → RollingLogger_new fsFull 100 3 k = fsFull (k - 1))
          ∧ RollingLogger_new fsFull 100 3 0 = some 0)) :=
  ⟨by decide, RollingLogger_new_rotation_spec fsFull 100 3 (by decide)⟩

end NiWatcher
